import Mathlib

/-!
Verification development for the sdf-text glyph rasterization core.

The source is embedded shallowly:

* Machine floats (f32) are idealized as elements of a linear ordered field
  K, instantiated at the rationals for executable checks and at the reals
  for theorems that need root existence.  Division by zero yields 0 in
  Lean; in the source the corresponding f32 divisions yield a non-finite
  value which every guard (is_finite combined with a range check) rejects,
  and the Lean value 0 is rejected by the same range checks, so the two
  semantics agree at every branch point of the embedded code.
* The external RootSolver crate (roots) is out of the repository; every
  function that calls it takes the solver as an explicit function
  argument producing the list of returned roots.
* Rust panics are modelled as Option / a dedicated outcome constructor:
  none means the process aborts.
* The f32 value INFINITY used as the initial minimum distance is
  modelled by the top element of WithTop.
-/

set_option linter.unusedVariables false

set_option linter.unusedSectionVars false

section Geometry

variable {K : Type} [LinearOrderedField K]

/-- Two dimensional vector or point, from curve.rs (struct Vec2). -/
structure Vec2 (K : Type) where
  x : K
  y : K
deriving DecidableEq

instance : Add (Vec2 K) := ⟨fun a b => ⟨a.x + b.x, a.y + b.y⟩⟩

instance : Sub (Vec2 K) := ⟨fun a b => ⟨a.x - b.x, a.y - b.y⟩⟩

instance : SMul K (Vec2 K) := ⟨fun c v => ⟨c * v.x, c * v.y⟩⟩

/-- Dot product, from curve.rs (Vec2::dot). -/
def Vec2.dot (a b : Vec2 K) : K := a.x * b.x + a.y * b.y

/-- Squared magnitude, from curve.rs (Vec2::magnitude2). -/
def Vec2.magnitude2 (a : Vec2 K) : K := a.dot a

/-- Linear interpolation, from curve.rs (Vec2::lerp). -/
def Vec2.lerp (a b : Vec2 K) (t : K) : Vec2 K := (1 - t) • a + t • b

@[simp] theorem Vec2.add_def (a b : Vec2 K) : a + b = ⟨a.x + b.x, a.y + b.y⟩ := rfl

@[simp] theorem Vec2.sub_def (a b : Vec2 K) : a - b = ⟨a.x - b.x, a.y - b.y⟩ := rfl

@[simp] theorem Vec2.smul_def (c : K) (v : Vec2 K) : c • v = ⟨c * v.x, c * v.y⟩ := rfl

/-- The tolerance constant EPS = 5e-5 from curve.rs. -/
def EPS (K : Type) [LinearOrderedField K] : K := 5 / 100000

/-- From curve.rs (solve_quadratic_for_single_t).  The external solver call
find_roots_quadratic is the function argument fq; the panic branch
(quadratic root not found) is the value none.  The is_finite guard of the
source is dropped: field elements are always finite. -/
def solve_quadratic_for_single_t (fq : K → K → K → List K) (a2 a1 a0 : K) : Option K :=
  (fq a2 a1 a0).find? (fun t => decide (0 ≤ t ∧ t ≤ 1))

/-- From curve.rs (solve_cubic_for_single_t); fc stands for the external
find_roots_cubic.  The panic branch (cubic root not found) is none. -/
def solve_cubic_for_single_t (fq : K → K → K → List K) (fc : K → K → K → K → List K)
    (a3 a2 a1 a0 : K) : Option K :=
  if |a3| < EPS K then
    solve_quadratic_for_single_t fq a2 a1 a0
  else
    (fc a3 a2 a1 a0).find? (fun t => decide (0 ≤ t ∧ t ≤ 1))

/-- Linear segment, from curve.rs. -/
structure LinearSegment (K : Type) where
  p0 : Vec2 K
  p1 : Vec2 K
deriving DecidableEq

/-- Quadratic segment, from curve.rs. -/
structure QuadraticSegment (K : Type) where
  p0 : Vec2 K
  p1 : Vec2 K
  p2 : Vec2 K
deriving DecidableEq

/-- Cubic segment, from curve.rs. -/
structure CubicSegment (K : Type) where
  p0 : Vec2 K
  p1 : Vec2 K
  p2 : Vec2 K
  p3 : Vec2 K
deriving DecidableEq

/-- From curve.rs (QuadraticSegment::eval_point). -/
def QuadraticSegment.eval_point (s : QuadraticSegment K) (t : K) : Vec2 K :=
  ((1 - t) * (1 - t)) • s.p0 + (2 * (1 - t) * t) • s.p1 + (t * t) • s.p2

/-- From curve.rs (QuadraticSegment::eval_tangent). -/
def QuadraticSegment.eval_tangent (s : QuadraticSegment K) (t : K) : Vec2 K :=
  (2 * (1 - t)) • (s.p1 - s.p0) + (2 * t) • (s.p2 - s.p1)

/-- From curve.rs (CubicSegment::eval_point). -/
def CubicSegment.eval_point (s : CubicSegment K) (t : K) : Vec2 K :=
  ((1 - t) * (1 - t) * (1 - t)) • s.p0 + (3 * ((1 - t) * (1 - t)) * t) • s.p1 +
    (3 * (1 - t) * (t * t)) • s.p2 + (t * t * t) • s.p3

/-- From curve.rs (CubicSegment::eval_tangent). -/
def CubicSegment.eval_tangent (s : CubicSegment K) (t : K) : Vec2 K :=
  (3 * ((1 - t) * (1 - t))) • (s.p1 - s.p0) + (6 * (1 - t) * t) • (s.p2 - s.p1) +
    (3 * (t * t)) • (s.p3 - s.p2)

/-- From curve.rs (line_intersection): X of the crossing of a line segment
with the horizontal scanline at y. -/
def line_intersection (y : K) (p0 p1 : Vec2 K) : K :=
  p0.x + (y - p0.y) / (p1.y - p0.y) * (p1.x - p0.x)

/-- Coefficient a2 of the scanline equation of quadratic_intersection. -/
def ycoef2_a (p0 p1 p2 : Vec2 K) : K := p0.y - 2 * p1.y + p2.y

/-- Coefficient a1 of the scanline equation of quadratic_intersection. -/
def ycoef2_b (p0 p1 p2 : Vec2 K) : K := -2 * p0.y + 2 * p1.y

/-- Coefficient a0 of the scanline equation of quadratic_intersection. -/
def ycoef2_c (y : K) (p0 : Vec2 K) : K := p0.y - y

/-- From curve.rs (quadratic_intersection): X of the crossing of a
Y-monotonic quadratic segment with the scanline at y; none models the
panic inside the single-root solver. -/
def quadratic_intersection (fq : K → K → K → List K) (y : K) (p0 p1 p2 : Vec2 K) : Option K :=
  (solve_quadratic_for_single_t fq (ycoef2_a p0 p1 p2) (ycoef2_b p0 p1 p2)
      (ycoef2_c y p0)).map
    (fun t => (1 - t) * (1 - t) * p0.x + 2 * (1 - t) * t * p1.x + t * t * p2.x)

/-- Coefficient a3 of the scanline equation of cubic_intersection. -/
def ycoef3_a (p0 p1 p2 p3 : Vec2 K) : K := -p0.y + 3 * p1.y - 3 * p2.y + p3.y

/-- Coefficient a2 of the scanline equation of cubic_intersection. -/
def ycoef3_b (p0 p1 p2 : Vec2 K) : K := 3 * p0.y - 6 * p1.y + 3 * p2.y

/-- Coefficient a1 of the scanline equation of cubic_intersection. -/
def ycoef3_c (p0 p1 : Vec2 K) : K := -3 * p0.y + 3 * p1.y

/-- From curve.rs (cubic_intersection): X of the crossing of a Y-monotonic
cubic segment with the scanline at y; none models the panic inside the
single-root solver. -/
def cubic_intersection (fq : K → K → K → List K) (fc : K → K → K → K → List K) (y : K)
    (p0 p1 p2 p3 : Vec2 K) : Option K :=
  (solve_cubic_for_single_t fq fc (ycoef3_a p0 p1 p2 p3) (ycoef3_b p0 p1 p2)
      (ycoef3_c p0 p1) (ycoef2_c y p0)).map
    (fun t =>
      (1 - t) * (1 - t) * (1 - t) * p0.x + 3 * ((1 - t) * (1 - t)) * t * p1.x +
        3 * (1 - t) * (t * t) * p2.x + t * t * t * p3.x)

end Geometry

section RasterizerDefs

variable {K : Type} [LinearOrderedField K]

/-- From rasterizer.rs (struct OrientedCrossing); dir is plus one for an
upward crossing and minus one for a downward crossing. -/
structure OrientedCrossing (K : Type) where
  dir : ℤ
  x : K
deriving DecidableEq

/-- From rasterizer.rs (struct LinearProfile). -/
structure LinearProfile (K : Type) where
  dir : ℤ
  p0 : Vec2 K
  p1 : Vec2 K
deriving DecidableEq

/-- From rasterizer.rs (struct QuadraticProfile). -/
structure QuadraticProfile (K : Type) where
  dir : ℤ
  p0 : Vec2 K
  p1 : Vec2 K
  p2 : Vec2 K
deriving DecidableEq

/-- From rasterizer.rs (struct CubicProfile). -/
structure CubicProfile (K : Type) where
  dir : ℤ
  p0 : Vec2 K
  p1 : Vec2 K
  p2 : Vec2 K
  p3 : Vec2 K
deriving DecidableEq

/-- From rasterizer.rs (struct Rasterizer). -/
structure Rasterizer (K : Type) where
  linear_profiles : List (LinearProfile K)
  quadratic_profiles : List (QuadraticProfile K)
  cubic_profiles : List (CubicProfile K)
deriving DecidableEq

/-- From rasterizer.rs (Rasterizer::new). -/
def Rasterizer.new : Rasterizer K := ⟨[], [], []⟩

/-- From rasterizer.rs (Rasterizer::push_line).  The two source ifs are
mutually exclusive, so they are embedded as a chained if. -/
def Rasterizer.push_line (r : Rasterizer K) (p0 p1 : Vec2 K) : Rasterizer K :=
  if p0.y < p1.y then
    { r with linear_profiles := r.linear_profiles ++ [⟨1, p0, p1⟩] }
  else if p1.y < p0.y then
    { r with linear_profiles := r.linear_profiles ++ [⟨-1, p1, p0⟩] }
  else r

/-- From rasterizer.rs (Rasterizer::push_bezier2_monotonic). -/
def Rasterizer.push_bezier2_monotonic (r : Rasterizer K) (p0 p1 p2 : Vec2 K) : Rasterizer K :=
  if p0.y < p2.y then
    { r with quadratic_profiles := r.quadratic_profiles ++ [⟨1, p0, p1, p2⟩] }
  else if p2.y < p0.y then
    { r with quadratic_profiles := r.quadratic_profiles ++ [⟨-1, p2, p1, p0⟩] }
  else r

/-- From rasterizer.rs (Rasterizer::push_bezier2).  The source guard
t.is_finite() rejects the result of a division by zero; in the embedding
such a division yields 0, which the range check 0 < t rejects as well. -/
def Rasterizer.push_bezier2 (r : Rasterizer K) (p0 p1 p2 : Vec2 K) : Rasterizer K :=
  let t := (p0.y - p1.y) / (p0.y - 2 * p1.y + p2.y)
  if 0 < t ∧ t < 1 then
    let m0 := p0.lerp p1 t
    let m1 := p1.lerp p2 t
    let n0 := m0.lerp m1 t
    (r.push_bezier2_monotonic p0 m0 n0).push_bezier2_monotonic n0 m1 p2
  else
    r.push_bezier2_monotonic p0 p1 p2

/-- From rasterizer.rs (Rasterizer::push_bezier3_monotonic). -/
def Rasterizer.push_bezier3_monotonic (r : Rasterizer K) (p0 p1 p2 p3 : Vec2 K) : Rasterizer K :=
  if p0.y < p3.y then
    { r with cubic_profiles := r.cubic_profiles ++ [⟨1, p0, p1, p2, p3⟩] }
  else if p3.y < p0.y then
    { r with cubic_profiles := r.cubic_profiles ++ [⟨-1, p3, p2, p1, p0⟩] }
  else r

/-- Coefficient a of the derivative quadratic solved by push_bezier3. -/
def deriv_a (p0 p1 p2 p3 : Vec2 K) : K := p3.y - 3 * p2.y + 3 * p1.y - p0.y

/-- Coefficient b of the derivative quadratic solved by push_bezier3. -/
def deriv_b (p0 p1 p2 p3 : Vec2 K) : K := 2 * (p2.y - 2 * p1.y + p0.y)

/-- Coefficient c of the derivative quadratic solved by push_bezier3. -/
def deriv_c (p0 p1 p2 p3 : Vec2 K) : K := p1.y - p0.y

/-- The list of Y-extremum parameters retained by push_bezier3: the
solver roots of the derivative quadratic that lie strictly inside (0,1).
The is_finite guard of the source is subsumed: field elements are finite. -/
def extremaOf (fq : K → K → K → List K) (p0 p1 p2 p3 : Vec2 K) : List K :=
  (fq (deriv_a p0 p1 p2 p3) (deriv_b p0 p1 p2 p3) (deriv_c p0 p1 p2 p3)).filter
    (fun t => decide (0 < t ∧ t < 1))

/-- The body of Rasterizer::push_bezier3 with the recursive call
abstracted, so that one recursion level can be unfolded at a time. -/
def Rasterizer.push_bezier3_step (fq : K → K → K → List K)
    (recurse : Rasterizer K → Vec2 K → Vec2 K → Vec2 K → Vec2 K → Option (Rasterizer K))
    (r : Rasterizer K) (p0 p1 p2 p3 : Vec2 K) : Option (Rasterizer K) :=
  match extremaOf fq p0 p1 p2 p3 with
  | [] => some (r.push_bezier3_monotonic p0 p1 p2 p3)
  | [t1] =>
    let m0 := p0.lerp p1 t1
    let m1 := p1.lerp p2 t1
    let m2 := p2.lerp p3 t1
    let n0 := m0.lerp m1 t1
    let n1 := m1.lerp m2 t1
    let o0 := n0.lerp n1 t1
    some ((r.push_bezier3_monotonic p0 m0 n0 o0).push_bezier3_monotonic o0 n1 m2 p3)
  | t1 :: t2 :: _ =>
    let m0 := p0.lerp p1 t1
    let m1 := p1.lerp p2 t1
    let m2 := p2.lerp p3 t1
    let n0 := m0.lerp m1 t1
    let n1 := m1.lerp m2 t1
    let o0 := n0.lerp n1 t1
    if t1 < t2 then
      recurse (r.push_bezier3_monotonic p0 m0 n0 o0) o0 n1 m2 p3
    else
      (recurse r p0 m0 n0 o0).map (fun r2 => r2.push_bezier3_monotonic o0 n1 m2 p3)

/-- From rasterizer.rs (Rasterizer::push_bezier3).  fq is the external
find_roots_quadratic used on the derivative coefficients.  The source
recursion on the inner half is bounded by an explicit fuel parameter;
running out of fuel yields none (the source has no such case: claim C8
shows fuel 2 is always enough for an exact solver). -/
def Rasterizer.push_bezier3 (fq : K → K → K → List K) :
    ℕ → Rasterizer K → Vec2 K → Vec2 K → Vec2 K → Vec2 K → Option (Rasterizer K)
  | 0, _, _, _, _, _ => none
  | fuel + 1, r, p0, p1, p2, p3 =>
    Rasterizer.push_bezier3_step fq (Rasterizer.push_bezier3 fq fuel) r p0 p1 p2 p3

theorem Rasterizer.push_bezier3_succ (fq : K → K → K → List K) (fuel : ℕ) (r : Rasterizer K)
    (p0 p1 p2 p3 : Vec2 K) :
    Rasterizer.push_bezier3 fq (fuel + 1) r p0 p1 p2 p3 =
      Rasterizer.push_bezier3_step fq (Rasterizer.push_bezier3 fq fuel) r p0 p1 p2 p3 := rfl

/-- The linear-profile loop of Rasterizer::scanline_crossings: one crossing
for each linear profile whose half-open Y-range contains y. -/
def collect_linear (y : K) : List (LinearProfile K) → List (OrientedCrossing K)
  | [] => []
  | prf :: rest =>
    if prf.p0.y ≤ y ∧ y < prf.p1.y then
      ⟨prf.dir, line_intersection y prf.p0 prf.p1⟩ :: collect_linear y rest
    else collect_linear y rest

/-- The quadratic-profile loop of Rasterizer::scanline_crossings; none
models the panic of the intersection primitive. -/
def collect_quadratic (fq : K → K → K → List K) (y : K) :
    List (QuadraticProfile K) → Option (List (OrientedCrossing K))
  | [] => some []
  | prf :: rest =>
    if prf.p0.y ≤ y ∧ y < prf.p2.y then
      match quadratic_intersection fq y prf.p0 prf.p1 prf.p2 with
      | none => none
      | some x => (collect_quadratic fq y rest).map (fun l => ⟨prf.dir, x⟩ :: l)
    else collect_quadratic fq y rest

/-- The cubic-profile loop of Rasterizer::scanline_crossings; none models
the panic of the intersection primitive. -/
def collect_cubic (fq : K → K → K → List K) (fc : K → K → K → K → List K) (y : K) :
    List (CubicProfile K) → Option (List (OrientedCrossing K))
  | [] => some []
  | prf :: rest =>
    if prf.p0.y ≤ y ∧ y < prf.p3.y then
      match cubic_intersection fq fc y prf.p0 prf.p1 prf.p2 prf.p3 with
      | none => none
      | some x => (collect_cubic fq fc y rest).map (fun l => ⟨prf.dir, x⟩ :: l)
    else collect_cubic fq fc y rest

/-- From rasterizer.rs (Rasterizer::scanline_crossings).  The final
sort_by on X is embedded as an insertion sort: both are stable, so they
agree on every input.  none models a panic in an intersection primitive. -/
def Rasterizer.scanline_crossings (fq : K → K → K → List K) (fc : K → K → K → K → List K)
    (r : Rasterizer K) (y : K) : Option (List (OrientedCrossing K)) :=
  match collect_quadratic fq y r.quadratic_profiles, collect_cubic fq fc y r.cubic_profiles with
  | some qs, some cs =>
    some (List.insertionSort (fun a b => a.x ≤ b.x)
      (collect_linear y r.linear_profiles ++ qs ++ cs))
  | _, _ => none

end RasterizerDefs

section SquareExample

/-- The square contour of the scanline test scenario, pushed edge by edge
as in Glyph::render_sdf. -/
def squareRasterizer : Rasterizer ℚ :=
  (((Rasterizer.new.push_line ⟨0, 0⟩ ⟨10, 0⟩).push_line ⟨10, 0⟩ ⟨10, 10⟩).push_line
      ⟨10, 10⟩ ⟨0, 10⟩).push_line ⟨0, 10⟩ ⟨0, 0⟩

/-- A solver stub for scanlines that meet no quadratic profile. -/
def noQuadRoots : ℚ → ℚ → ℚ → List ℚ := fun _ _ _ => []

/-- A solver stub for scanlines that meet no cubic profile. -/
def noCubicRoots : ℚ → ℚ → ℚ → ℚ → List ℚ := fun _ _ _ _ => []

theorem squareRasterizer_eq :
    squareRasterizer =
      { linear_profiles := [⟨1, ⟨10, 0⟩, ⟨10, 10⟩⟩, ⟨-1, ⟨0, 0⟩, ⟨0, 10⟩⟩],
        quadratic_profiles := [], cubic_profiles := [] } := by
  norm_num [squareRasterizer, Rasterizer.push_line, Rasterizer.new]

/-- Claim C4, counterexample: on the square contour at y = 5 the code does
not return the crossing list demanded by the spec, which has the
directions attached to the wrong edges. -/
theorem C4_counterexample :
    Rasterizer.scanline_crossings noQuadRoots noCubicRoots squareRasterizer 5 ≠
      some [⟨1, 0⟩, ⟨-1, 10⟩] := by
  rw [squareRasterizer_eq]
  norm_num [Rasterizer.scanline_crossings, collect_quadratic, collect_cubic, collect_linear,
    line_intersection, List.insertionSort, List.orderedInsert]

/-- Claim C4, amended: the square contour at y = 5 yields the crossings
(dir -1 at x = 0, dir +1 at x = 10) after sorting: the upward edge of the
counterclockwise square is its right edge. -/
theorem C4_square_crossings :
    Rasterizer.scanline_crossings noQuadRoots noCubicRoots squareRasterizer 5 =
      some [⟨-1, 0⟩, ⟨1, 10⟩] := by
  rw [squareRasterizer_eq]
  norm_num [Rasterizer.scanline_crossings, collect_quadratic, collect_cubic, collect_linear,
    line_intersection, List.insertionSort, List.orderedInsert]

end SquareExample

section ScanlineShape

variable {K : Type} [LinearOrderedField K]

/-- The crossing list that claim C2 predicts: one oriented crossing per
stored profile whose half-open Y-range contains y, carrying the dir of the
profile and the X of the matching intersection primitive. -/
def expected_crossings (fq : K → K → K → List K) (fc : K → K → K → K → List K)
    (r : Rasterizer K) (y : K) : List (OrientedCrossing K) :=
  (r.linear_profiles.filter (fun prf => decide (prf.p0.y ≤ y ∧ y < prf.p1.y))).map
      (fun prf => ⟨prf.dir, line_intersection y prf.p0 prf.p1⟩) ++
    (r.quadratic_profiles.filter (fun prf => decide (prf.p0.y ≤ y ∧ y < prf.p2.y))).map
      (fun prf => ⟨prf.dir, (quadratic_intersection fq y prf.p0 prf.p1 prf.p2).getD 0⟩) ++
    (r.cubic_profiles.filter (fun prf => decide (prf.p0.y ≤ y ∧ y < prf.p3.y))).map
      (fun prf => ⟨prf.dir, (cubic_intersection fq fc y prf.p0 prf.p1 prf.p2 prf.p3).getD 0⟩)

theorem collect_linear_eq (y : K) (l : List (LinearProfile K)) :
    collect_linear y l =
      (l.filter (fun prf => decide (prf.p0.y ≤ y ∧ y < prf.p1.y))).map
        (fun prf => ⟨prf.dir, line_intersection y prf.p0 prf.p1⟩) := by
  induction l with
  | nil => rfl
  | cons p rest ih =>
    by_cases h : p.p0.y ≤ y ∧ y < p.p1.y <;>
      simp [collect_linear, h, ih, List.filter_cons]

theorem collect_quadratic_eq (fq : K → K → K → List K) (y : K)
    (l : List (QuadraticProfile K))
    (h : ∀ prf ∈ l, prf.p0.y ≤ y → y < prf.p2.y →
      (quadratic_intersection fq y prf.p0 prf.p1 prf.p2).isSome) :
    collect_quadratic fq y l =
      some ((l.filter (fun prf => decide (prf.p0.y ≤ y ∧ y < prf.p2.y))).map
        (fun prf => ⟨prf.dir, (quadratic_intersection fq y prf.p0 prf.p1 prf.p2).getD 0⟩)) := by
  induction l with
  | nil => rfl
  | cons p rest ih =>
    have hrest := ih (fun prf hm => h prf (List.mem_cons_of_mem _ hm))
    by_cases hc : p.p0.y ≤ y ∧ y < p.p2.y
    · obtain ⟨x, hx⟩ := Option.isSome_iff_exists.mp (h p (List.mem_cons_self _ _) hc.1 hc.2)
      simp [collect_quadratic, hc, hx, hrest, List.filter_cons]
    · simp [collect_quadratic, hc, hrest, List.filter_cons]

theorem collect_cubic_eq (fq : K → K → K → List K) (fc : K → K → K → K → List K) (y : K)
    (l : List (CubicProfile K))
    (h : ∀ prf ∈ l, prf.p0.y ≤ y → y < prf.p3.y →
      (cubic_intersection fq fc y prf.p0 prf.p1 prf.p2 prf.p3).isSome) :
    collect_cubic fq fc y l =
      some ((l.filter (fun prf => decide (prf.p0.y ≤ y ∧ y < prf.p3.y))).map
        (fun prf =>
          ⟨prf.dir, (cubic_intersection fq fc y prf.p0 prf.p1 prf.p2 prf.p3).getD 0⟩)) := by
  induction l with
  | nil => rfl
  | cons p rest ih =>
    have hrest := ih (fun prf hm => h prf (List.mem_cons_of_mem _ hm))
    by_cases hc : p.p0.y ≤ y ∧ y < p.p3.y
    · obtain ⟨x, hx⟩ := Option.isSome_iff_exists.mp (h p (List.mem_cons_self _ _) hc.1 hc.2)
      simp [collect_cubic, hc, hx, hrest, List.filter_cons]
    · simp [collect_cubic, hc, hrest, List.filter_cons]

/-- Claim C2: whenever every qualifying profile admits an intersection
(the primitives do not panic), scanline_crossings returns exactly the
expected crossings, one per stored profile whose half-open Y-range
contains y, as a permutation, and the returned list is sorted by X. -/
theorem C2_scanline_crossings (fq : K → K → K → List K) (fc : K → K → K → K → List K)
    (r : Rasterizer K) (y : K)
    (hq : ∀ prf ∈ r.quadratic_profiles, prf.p0.y ≤ y → y < prf.p2.y →
      (quadratic_intersection fq y prf.p0 prf.p1 prf.p2).isSome)
    (hc : ∀ prf ∈ r.cubic_profiles, prf.p0.y ≤ y → y < prf.p3.y →
      (cubic_intersection fq fc y prf.p0 prf.p1 prf.p2 prf.p3).isSome) :
    r.scanline_crossings fq fc y =
        some (List.insertionSort (fun a b => a.x ≤ b.x) (expected_crossings fq fc r y)) ∧
      (List.insertionSort (fun a b => a.x ≤ b.x) (expected_crossings fq fc r y)).Perm
        (expected_crossings fq fc r y) ∧
      (List.insertionSort (fun a b => a.x ≤ b.x) (expected_crossings fq fc r y)).Sorted
        (fun a b => a.x ≤ b.x) := by
  haveI htot : IsTotal (OrientedCrossing K) (fun a b => a.x ≤ b.x) := ⟨fun a b => le_total a.x b.x⟩
  haveI htra : IsTrans (OrientedCrossing K) (fun a b => a.x ≤ b.x) :=
    ⟨fun a b c hab hbc => le_trans hab hbc⟩
  refine ⟨?_, List.perm_insertionSort _ _, List.sorted_insertionSort _ _⟩
  rw [Rasterizer.scanline_crossings, collect_quadratic_eq fq y _ hq, collect_cubic_eq fq fc y _ hc]
  rw [expected_crossings, collect_linear_eq]

/-- Witness for C2 at the square contour and scanline y = 5. -/
theorem C2_scanline_crossings_witness :
    squareRasterizer.scanline_crossings noQuadRoots noCubicRoots 5 =
        some (List.insertionSort (fun a b => a.x ≤ b.x)
          (expected_crossings noQuadRoots noCubicRoots squareRasterizer 5)) ∧
      (List.insertionSort (fun a b => a.x ≤ b.x)
          (expected_crossings noQuadRoots noCubicRoots squareRasterizer 5)).Perm
        (expected_crossings noQuadRoots noCubicRoots squareRasterizer 5) ∧
      (List.insertionSort (fun a b => a.x ≤ b.x)
          (expected_crossings noQuadRoots noCubicRoots squareRasterizer 5)).Sorted
        (fun a b => a.x ≤ b.x) :=
  C2_scanline_crossings noQuadRoots noCubicRoots squareRasterizer 5
    (by rw [squareRasterizer_eq]; intro prf hm; simp at hm)
    (by rw [squareRasterizer_eq]; intro prf hm; simp at hm)

end ScanlineShape

section ProfileInvariant

/-- Claim C3 (code bug): pushing the Y-monotonic cubic with control
points (0,0), (0,5/4), (0,1/2), (0,7/4) stores a cubic profile whose
control ordinates are far from monotonic: p1.y = 5/4 exceeds p2.y = 1/2
by 3/4, violating the invariant that cubic_intersection asserts.  The
derivative quadratic 4 t^2 - 4 t + 5/4 has negative discriminant (third
conjunct), so the exact solver returns no roots, matching the stub. -/
theorem C3_cubic_profile_invariant_violated :
    Rasterizer.push_bezier3 noQuadRoots 1 Rasterizer.new ⟨0, 0⟩ ⟨0, 5/4⟩ ⟨0, 1/2⟩ ⟨0, 7/4⟩ =
        some { linear_profiles := [], quadratic_profiles := [],
               cubic_profiles := [⟨1, ⟨0, 0⟩, ⟨0, 5/4⟩, ⟨0, 1/2⟩, ⟨0, 7/4⟩⟩] } ∧
      ¬ ((5 : ℚ)/4 < 1/2 + EPS ℚ) ∧
      ((-4 : ℚ))^2 - 4 * 4 * (5/4) < 0 := by
  refine ⟨?_, by norm_num [EPS], by norm_num⟩
  rw [Rasterizer.push_bezier3_succ]
  norm_num [Rasterizer.push_bezier3_step, Rasterizer.push_bezier3_monotonic, Rasterizer.new,
    noQuadRoots, extremaOf]

/-- The derivative quadratic of the C3 counterexample cubic has no real
root at all, so the stub solver used above agrees with any solver that
returns genuine real roots. -/
theorem C3_derivative_has_no_real_root (t : ℝ) : 4 * t^2 - 4 * t + 5/4 ≠ 0 := by
  nlinarith [sq_nonneg (2*t - 1)]

end ProfileInvariant

section Termination

variable {K : Type} [LinearOrderedField K]

theorem quadratic_eq_zero_of_three_roots {A B C t1 t2 t3 : K}
    (h1 : A * t1^2 + B * t1 + C = 0) (h2 : A * t2^2 + B * t2 + C = 0)
    (h3 : A * t3^2 + B * t3 + C = 0) (h12 : t1 ≠ t2) (h13 : t1 ≠ t3) (h23 : t2 ≠ t3) :
    A = 0 ∧ B = 0 ∧ C = 0 := by
  have e12 : (t1 - t2) * (A * (t1 + t2) + B) = 0 := by linear_combination h1 - h2
  have e13 : (t1 - t3) * (A * (t1 + t3) + B) = 0 := by linear_combination h1 - h3
  have f12 : A * (t1 + t2) + B = 0 :=
    (mul_eq_zero.mp e12).resolve_left (sub_ne_zero_of_ne h12)
  have f13 : A * (t1 + t3) + B = 0 :=
    (mul_eq_zero.mp e13).resolve_left (sub_ne_zero_of_ne h13)
  have hA : A = 0 := by
    have h23' : A * (t2 - t3) = 0 := by linear_combination f12 - f13
    exact (mul_eq_zero.mp h23').resolve_right (sub_ne_zero_of_ne h23)
  have hB : B = 0 := by rw [hA] at f12; simpa using f12
  refine ⟨hA, hB, ?_⟩
  rw [hA, hB] at h1; simpa using h1

/-- De Casteljau at t1 is exact: the derivative quadratic of the right
split half is the reparameterized derivative quadratic of the whole
cubic, scaled by 1 - t1. -/
theorem deriv_right {p0 p1 p2 p3 m0 m1 m2 n0 n1 o0 : Vec2 K} {t1 : K}
    (hm0 : m0 = p0.lerp p1 t1) (hm1 : m1 = p1.lerp p2 t1) (hm2 : m2 = p2.lerp p3 t1)
    (hn0 : n0 = m0.lerp m1 t1) (hn1 : n1 = m1.lerp m2 t1) (ho0 : o0 = n0.lerp n1 t1) (s : K) :
    deriv_a o0 n1 m2 p3 * s^2 + deriv_b o0 n1 m2 p3 * s + deriv_c o0 n1 m2 p3 =
      (1 - t1) * (deriv_a p0 p1 p2 p3 * (t1 + s * (1 - t1))^2 +
        deriv_b p0 p1 p2 p3 * (t1 + s * (1 - t1)) + deriv_c p0 p1 p2 p3) := by
  subst ho0; subst hn0; subst hn1; subst hm0; subst hm1; subst hm2
  simp only [deriv_a, deriv_b, deriv_c, Vec2.lerp, Vec2.smul_def, Vec2.add_def]
  ring

/-- De Casteljau at t1 is exact: the derivative quadratic of the left
split half is the reparameterized derivative quadratic of the whole
cubic, scaled by t1. -/
theorem deriv_left {p0 p1 p2 p3 m0 m1 m2 n0 n1 o0 : Vec2 K} {t1 : K}
    (hm0 : m0 = p0.lerp p1 t1) (hm1 : m1 = p1.lerp p2 t1) (hm2 : m2 = p2.lerp p3 t1)
    (hn0 : n0 = m0.lerp m1 t1) (hn1 : n1 = m1.lerp m2 t1) (ho0 : o0 = n0.lerp n1 t1) (s : K) :
    deriv_a p0 m0 n0 o0 * s^2 + deriv_b p0 m0 n0 o0 * s + deriv_c p0 m0 n0 o0 =
      t1 * (deriv_a p0 p1 p2 p3 * (0 + s * t1)^2 +
        deriv_b p0 p1 p2 p3 * (0 + s * t1) + deriv_c p0 p1 p2 p3) := by
  subst ho0; subst hn0; subst hn1; subst hm0; subst hm1; subst hm2
  simp only [deriv_a, deriv_b, deriv_c, Vec2.lerp, Vec2.smul_def, Vec2.add_def]
  ring

/-- If the derivative quadratic of a half curve is an affine
reparameterization of a quadratic that already has the two distinct
roots t1 and t2, and the image of (0,1) avoids t1, then at most one
solver root of the half passes the (0,1) filter. -/
theorem extrema_length_le_one (fq : K → K → K → List K)
    (hsound : ∀ a b c : K, ∀ t ∈ fq a b c, a * t^2 + b * t + c = 0)
    (hnodup : ∀ a b c : K, (fq a b c).Nodup)
    {q0 q1 q2 q3 : Vec2 K} {A B C t1 t2 α β : K}
    (hQ1 : A * t1^2 + B * t1 + C = 0) (hQ2 : A * t2^2 + B * t2 + C = 0) (ht12 : t1 ≠ t2)
    (hABC : ¬(A = 0 ∧ B = 0 ∧ C = 0)) (hα : α ≠ 0)
    (hrel : ∀ s : K, deriv_a q0 q1 q2 q3 * s^2 + deriv_b q0 q1 q2 q3 * s + deriv_c q0 q1 q2 q3
        = α * (A * (β + s * α)^2 + B * (β + s * α) + C))
    (havoid : ∀ s : K, 0 < s → s < 1 → β + s * α ≠ t1) :
    (extremaOf fq q0 q1 q2 q3).length ≤ 1 := by
  rcases hL : extremaOf fq q0 q1 q2 q3 with _ | ⟨s1, _ | ⟨s2, rest2⟩⟩
  · simp
  · simp
  · exfalso
    have hnd : (extremaOf fq q0 q1 q2 q3).Nodup := (hnodup _ _ _).filter _
    rw [hL] at hnd
    have hs12 : s1 ≠ s2 := by
      intro h; exact (List.nodup_cons.mp hnd).1 (h ▸ List.mem_cons_self _ _)
    have hm1 : s1 ∈ extremaOf fq q0 q1 q2 q3 := by rw [hL]; exact List.mem_cons_self _ _
    have hm2 : s2 ∈ extremaOf fq q0 q1 q2 q3 := by rw [hL]; simp
    obtain ⟨hin1, hp1⟩ := List.mem_filter.mp hm1
    obtain ⟨hin2, hp2⟩ := List.mem_filter.mp hm2
    have hs1 : 0 < s1 ∧ s1 < 1 := of_decide_eq_true hp1
    have hs2 : 0 < s2 ∧ s2 < 1 := of_decide_eq_true hp2
    have hr1 := hsound _ _ _ s1 hin1
    have hr2 := hsound _ _ _ s2 hin2
    have hu1 : A * (β + s1 * α)^2 + B * (β + s1 * α) + C = 0 := by
      have h := hrel s1; rw [hr1] at h
      exact (mul_eq_zero.mp h.symm).resolve_left hα
    have hu2 : A * (β + s2 * α)^2 + B * (β + s2 * α) + C = 0 := by
      have h := hrel s2; rw [hr2] at h
      exact (mul_eq_zero.mp h.symm).resolve_left hα
    have hne12 : β + s1 * α ≠ β + s2 * α := by
      intro h
      exact hs12 (mul_right_cancel₀ hα (by linarith))
    have h1t : β + s1 * α ≠ t1 := havoid s1 hs1.1 hs1.2
    have h2t : β + s2 * α ≠ t1 := havoid s2 hs2.1 hs2.2
    exact hABC
      (quadratic_eq_zero_of_three_roots hQ1 hu1 hu2 (Ne.symm h1t) (Ne.symm h2t) hne12)

theorem push_bezier3_isSome_of_short (fq : K → K → K → List K) (fuel : ℕ) (r : Rasterizer K)
    (p0 p1 p2 p3 : Vec2 K) (h : (extremaOf fq p0 p1 p2 p3).length ≤ 1) :
    (Rasterizer.push_bezier3 fq (fuel + 1) r p0 p1 p2 p3).isSome := by
  rw [Rasterizer.push_bezier3_succ]
  rcases hE : extremaOf fq p0 p1 p2 p3 with _ | ⟨u1, _ | ⟨u2, rest⟩⟩
  · simp [Rasterizer.push_bezier3_step, hE]
  · simp [Rasterizer.push_bezier3_step, hE]
  · rw [hE] at h; simp at h

/-- Claim C8: for a solver that returns a duplicate-free list of genuine
roots (and nothing for the identically zero quadratic), push_bezier3
with fuel 2 never runs out of fuel: the inner half of a two-extrema
split contains at most one remaining extremum, so its recursive call
takes a non-recursive branch. -/
theorem C8_push_bezier3_depth_bounded (fq : K → K → K → List K)
    (hsound : ∀ a b c : K, ∀ t ∈ fq a b c, a * t^2 + b * t + c = 0)
    (hnodup : ∀ a b c : K, (fq a b c).Nodup)
    (hdeg : fq 0 0 0 = [])
    (r : Rasterizer K) (p0 p1 p2 p3 : Vec2 K) :
    (Rasterizer.push_bezier3 fq 2 r p0 p1 p2 p3).isSome := by
  rw [show (2 : ℕ) = 1 + 1 from rfl, Rasterizer.push_bezier3_succ]
  rcases hE : extremaOf fq p0 p1 p2 p3 with _ | ⟨t1, _ | ⟨t2, rest⟩⟩
  · simp [Rasterizer.push_bezier3_step, hE]
  · simp [Rasterizer.push_bezier3_step, hE]
  · have hnd : (extremaOf fq p0 p1 p2 p3).Nodup := (hnodup _ _ _).filter _
    rw [hE] at hnd
    have ht12 : t1 ≠ t2 := by
      intro h; exact (List.nodup_cons.mp hnd).1 (h ▸ List.mem_cons_self _ _)
    have hm1 : t1 ∈ extremaOf fq p0 p1 p2 p3 := by rw [hE]; exact List.mem_cons_self _ _
    have hm2 : t2 ∈ extremaOf fq p0 p1 p2 p3 := by rw [hE]; simp
    obtain ⟨hin1, hp1⟩ := List.mem_filter.mp hm1
    obtain ⟨hin2, hp2⟩ := List.mem_filter.mp hm2
    have ht1 : 0 < t1 ∧ t1 < 1 := of_decide_eq_true hp1
    have ht2 : 0 < t2 ∧ t2 < 1 := of_decide_eq_true hp2
    have hQ1 := hsound _ _ _ t1 hin1
    have hQ2 := hsound _ _ _ t2 hin2
    have hABC : ¬(deriv_a p0 p1 p2 p3 = 0 ∧ deriv_b p0 p1 p2 p3 = 0 ∧
        deriv_c p0 p1 p2 p3 = 0) := by
      rintro ⟨ha, hb, hc⟩
      rw [extremaOf, ha, hb, hc, hdeg] at hE
      simp at hE
    simp only [Rasterizer.push_bezier3_step, hE]
    split_ifs with hlt
    · refine push_bezier3_isSome_of_short fq 0 _ _ _ _ _
        (extrema_length_le_one fq hsound hnodup hQ1 hQ2 ht12 hABC
          (sub_ne_zero_of_ne (Ne.symm (ne_of_lt ht1.2)))
          (fun s => deriv_right rfl rfl rfl rfl rfl rfl s) ?_)
      intro s hs0 hs1 h
      have h0 : s * (1 - t1) = 0 := by linarith
      rcases mul_eq_zero.mp h0 with h' | h'
      · exact absurd h' (ne_of_gt hs0)
      · exact absurd h' (sub_ne_zero_of_ne (Ne.symm (ne_of_lt ht1.2)))
    · rw [Option.isSome_map']
      refine push_bezier3_isSome_of_short fq 0 _ _ _ _ _
        (extrema_length_le_one fq hsound hnodup hQ1 hQ2 ht12 hABC
          (ne_of_gt ht1.1)
          (fun s => deriv_left rfl rfl rfl rfl rfl rfl s) ?_)
      intro s hs0 hs1 h
      have h0 : (s - 1) * t1 = 0 := by linarith
      rcases mul_eq_zero.mp h0 with h' | h'
      · exact absurd (by linarith : s = 1) (ne_of_lt hs1)
      · exact absurd h' (ne_of_gt ht1.1)

/-- Witness for C8: the empty-root solver satisfies all three solver
hypotheses, and fuel 2 succeeds. -/
theorem C8_witness :
    (Rasterizer.push_bezier3 noQuadRoots 2 Rasterizer.new ⟨0, 0⟩ ⟨1, 1⟩ ⟨2, 2⟩ ⟨3, 3⟩).isSome :=
  C8_push_bezier3_depth_bounded noQuadRoots
    (by intro a b c t ht; simp [noQuadRoots] at ht)
    (by intro a b c; simp [noQuadRoots])
    rfl Rasterizer.new ⟨0, 0⟩ ⟨1, 1⟩ ⟨2, 2⟩ ⟨3, 3⟩

end Termination

section RootNotFound

/-- Claim C6, counterexample: the Y-monotonic cubic with control
ordinates 0, 1/3, 2/3, 1 + 1/100000 has scanline leading coefficient
1/100000, below EPS, so the quadratic fallback is taken; at the
in-range scanline y = 1 + 1/200000 the truncated quadratic t - y has its
only root at t = y outside [0,1], so the primitive fails even though the
segment is perfectly monotonic and y lies in its half-open range.  The
solver list supplied holds exactly that root (last conjunct). -/
theorem C6_counterexample :
    cubic_intersection (fun _ _ _ => [1 + 1/200000]) noCubicRoots (1 + 1/200000)
        ⟨0, 0⟩ ⟨0, 1/3⟩ ⟨0, 2/3⟩ ⟨0, 1 + 1/100000⟩ = none ∧
      ((0 : ℚ) ≤ 1/3 ∧ (1 : ℚ)/3 ≤ 2/3 ∧ (2 : ℚ)/3 ≤ 1 + 1/100000) ∧
      ((0 : ℚ) ≤ 1 + 1/200000 ∧ (1 : ℚ) + 1/200000 < 1 + 1/100000) ∧
      (0 : ℚ) < |ycoef3_a (⟨0, 0⟩ : Vec2 ℚ) ⟨0, 1/3⟩ ⟨0, 2/3⟩ ⟨0, 1 + 1/100000⟩| ∧
      |ycoef3_a (⟨0, 0⟩ : Vec2 ℚ) ⟨0, 1/3⟩ ⟨0, 2/3⟩ ⟨0, 1 + 1/100000⟩| < EPS ℚ ∧
      ycoef3_b (⟨0, 0⟩ : Vec2 ℚ) ⟨0, 1/3⟩ ⟨0, 2/3⟩ * (1 + 1/200000)^2 +
          ycoef3_c (⟨0, 0⟩ : Vec2 ℚ) ⟨0, 1/3⟩ * (1 + 1/200000) +
          ycoef2_c (1 + 1/200000) (⟨0, 0⟩ : Vec2 ℚ) = 0 := by
  refine ⟨?_, by norm_num, by norm_num, by norm_num [ycoef3_a, abs_pos],
    by norm_num [ycoef3_a, EPS, abs_lt], by norm_num [ycoef3_b, ycoef3_c, ycoef2_c]⟩
  norm_num [cubic_intersection, solve_cubic_for_single_t, solve_quadratic_for_single_t,
    ycoef3_a, ycoef3_b, ycoef3_c, ycoef2_c, EPS, List.find?]

/-- Claim C6, amended: the quadratic primitive always finds a root for a
monotonic in-range scanline; the cubic primitive does so whenever its
leading coefficient is exactly zero or at least EPS in magnitude (the
counterexample shows the band 0 < magnitude < EPS can fail).  The solver
hypotheses say the external solver returns exactly the real roots. -/
theorem C6_intersection_finds_root :
    (∀ (y : ℝ) (p0 p1 p2 : Vec2 ℝ) (fq : ℝ → ℝ → ℝ → List ℝ),
      p0.y ≤ p1.y → p1.y ≤ p2.y → p0.y ≤ y → y < p2.y →
      (∀ t : ℝ, t ∈ fq (ycoef2_a p0 p1 p2) (ycoef2_b p0 p1 p2) (ycoef2_c y p0) ↔
        ycoef2_a p0 p1 p2 * t^2 + ycoef2_b p0 p1 p2 * t + ycoef2_c y p0 = 0) →
      (quadratic_intersection fq y p0 p1 p2).isSome) ∧
    (∀ (y : ℝ) (p0 p1 p2 p3 : Vec2 ℝ) (fq : ℝ → ℝ → ℝ → List ℝ)
        (fc : ℝ → ℝ → ℝ → ℝ → List ℝ),
      p0.y ≤ p1.y → p1.y ≤ p2.y → p2.y ≤ p3.y → p0.y ≤ y → y < p3.y →
      (ycoef3_a p0 p1 p2 p3 = 0 ∨ EPS ℝ ≤ |ycoef3_a p0 p1 p2 p3|) →
      (|ycoef3_a p0 p1 p2 p3| < EPS ℝ →
        ∀ t : ℝ, t ∈ fq (ycoef3_b p0 p1 p2) (ycoef3_c p0 p1) (ycoef2_c y p0) ↔
          ycoef3_b p0 p1 p2 * t^2 + ycoef3_c p0 p1 * t + ycoef2_c y p0 = 0) →
      (EPS ℝ ≤ |ycoef3_a p0 p1 p2 p3| →
        ∀ t : ℝ,
          t ∈ fc (ycoef3_a p0 p1 p2 p3) (ycoef3_b p0 p1 p2) (ycoef3_c p0 p1) (ycoef2_c y p0) ↔
          ycoef3_a p0 p1 p2 p3 * t^3 + ycoef3_b p0 p1 p2 * t^2 + ycoef3_c p0 p1 * t +
            ycoef2_c y p0 = 0) →
      (cubic_intersection fq fc y p0 p1 p2 p3).isSome) := by
  constructor
  · intro y p0 p1 p2 fq h01 h12 hy0 hy2 hfq
    rw [quadratic_intersection, Option.isSome_map']
    set A := ycoef2_a p0 p1 p2 with hA
    set B := ycoef2_b p0 p1 p2 with hB
    set C := ycoef2_c y p0 with hC
    have hg0 : A * 0^2 + B * 0 + C ≤ 0 := by
      simp only [hC, ycoef2_c]; nlinarith
    have hg1 : 0 < A * 1^2 + B * 1 + C := by
      simp only [hA, hB, hC, ycoef2_a, ycoef2_b, ycoef2_c]; nlinarith
    have hcont : ContinuousOn (fun t : ℝ => A * t^2 + B * t + C) (Set.Icc 0 1) :=
      (Continuous.continuousOn (by continuity))
    obtain ⟨t, htI, hgt⟩ := intermediate_value_Icc zero_le_one hcont ⟨hg0, hg1.le⟩
    rw [solve_quadratic_for_single_t]
    exact List.find?_isSome.mpr ⟨t, (hfq t).mpr hgt, decide_eq_true ⟨htI.1, htI.2⟩⟩
  · intro y p0 p1 p2 p3 fq fc h01 h12 h23 hy0 hy3 hsplit hfq hfc
    rw [cubic_intersection, Option.isSome_map', solve_cubic_for_single_t]
    by_cases hband : |ycoef3_a p0 p1 p2 p3| < EPS ℝ
    · have ha3 : ycoef3_a p0 p1 p2 p3 = 0 := by
        rcases hsplit with h | h
        · exact h
        · exact absurd hband (not_lt_of_le h)
      rw [if_pos hband, solve_quadratic_for_single_t]
      set B := ycoef3_b p0 p1 p2 with hB
      set C := ycoef3_c p0 p1 with hC
      set D := ycoef2_c y p0 with hD
      have hg0 : B * 0^2 + C * 0 + D ≤ 0 := by
        simp only [hD, ycoef2_c]; nlinarith
      have hg1 : 0 < B * 1^2 + C * 1 + D := by
        have ha3' := ha3
        rw [ycoef3_a] at ha3'
        simp only [hB, hC, hD, ycoef3_b, ycoef3_c, ycoef2_c]; nlinarith
      have hcont : ContinuousOn (fun t : ℝ => B * t^2 + C * t + D) (Set.Icc 0 1) :=
        (Continuous.continuousOn (by continuity))
      obtain ⟨t, htI, hgt⟩ := intermediate_value_Icc zero_le_one hcont ⟨hg0, hg1.le⟩
      exact List.find?_isSome.mpr ⟨t, (hfq hband t).mpr hgt, decide_eq_true ⟨htI.1, htI.2⟩⟩
    · have hge : EPS ℝ ≤ |ycoef3_a p0 p1 p2 p3| := le_of_not_lt hband
      rw [if_neg hband]
      set A := ycoef3_a p0 p1 p2 p3 with hA
      set B := ycoef3_b p0 p1 p2 with hB
      set C := ycoef3_c p0 p1 with hC
      set D := ycoef2_c y p0 with hD
      have hg0 : A * 0^3 + B * 0^2 + C * 0 + D ≤ 0 := by
        simp only [hD, ycoef2_c]; nlinarith
      have hg1 : 0 < A * 1^3 + B * 1^2 + C * 1 + D := by
        simp only [hA, hB, hC, hD, ycoef3_a, ycoef3_b, ycoef3_c, ycoef2_c]; nlinarith
      have hcont : ContinuousOn (fun t : ℝ => A * t^3 + B * t^2 + C * t + D) (Set.Icc 0 1) :=
        (Continuous.continuousOn (by continuity))
      obtain ⟨t, htI, hgt⟩ := intermediate_value_Icc zero_le_one hcont ⟨hg0, hg1.le⟩
      exact List.find?_isSome.mpr ⟨t, (hfc hge t).mpr hgt, decide_eq_true ⟨htI.1, htI.2⟩⟩

/-- Witness for the amended C6 at two concrete monotonic segments. -/
theorem C6_intersection_finds_root_witness :
    (quadratic_intersection (fun _ _ _ => [1/2]) (1/2 : ℝ) ⟨0, 0⟩ ⟨0, 1/2⟩ ⟨0, 1⟩).isSome ∧
    (cubic_intersection (fun _ _ _ => [1/2]) (fun _ _ _ _ => []) (1/2 : ℝ)
      ⟨0, 0⟩ ⟨0, 1/3⟩ ⟨0, 2/3⟩ ⟨0, 1⟩).isSome :=
  ⟨C6_intersection_finds_root.1 (1/2) ⟨0, 0⟩ ⟨0, 1/2⟩ ⟨0, 1⟩ _
      (by norm_num) (by norm_num) (by norm_num) (by norm_num)
      (by
        intro t
        norm_num [ycoef2_a, ycoef2_b, ycoef2_c]
        constructor <;> intro h <;> linarith),
    C6_intersection_finds_root.2 (1/2) ⟨0, 0⟩ ⟨0, 1/3⟩ ⟨0, 2/3⟩ ⟨0, 1⟩ _ _
      (by norm_num) (by norm_num) (by norm_num) (by norm_num) (by norm_num)
      (Or.inl (by norm_num [ycoef3_a]))
      (by
        intro hb t
        norm_num [ycoef3_b, ycoef3_c, ycoef2_c]
        constructor <;> intro h <;> linarith)
      (by
        intro hb
        exact absurd hb (by norm_num [ycoef3_a, EPS]))⟩

end RootNotFound

section MinFold

variable {α : Type} [LinearOrder α]

/-- The running-minimum loop pattern of the source: starting from an
accumulator (f32 INFINITY at the top-level call, modelled by the top of
WithTop), replace it by each list element that is strictly smaller. -/
def run_min (l : List α) (init : WithTop α) : WithTop α :=
  l.foldl (fun acc (d : α) => if (d : WithTop α) < acc then (d : WithTop α) else acc) init

theorem run_min_eq_foldl_min (l : List α) (init : WithTop α) :
    run_min l init = l.foldl (fun acc (d : α) => min acc (d : WithTop α)) init := by
  induction l generalizing init with
  | nil => rfl
  | cons a l ih =>
    rw [run_min, List.foldl_cons, List.foldl_cons, ← run_min, ih]
    congr 1
    split_ifs with h
    · exact (min_eq_right h.le).symm
    · exact (min_eq_left (le_of_not_lt h)).symm

theorem foldl_min_le_init (l : List (WithTop α)) (init : WithTop α) :
    l.foldl min init ≤ init := by
  induction l generalizing init with
  | nil => exact le_refl _
  | cons a l ih => exact le_trans (ih (min init a)) (min_le_left _ _)

theorem foldl_min_le_mem {l : List (WithTop α)} {x : WithTop α} (hx : x ∈ l)
    (init : WithTop α) : l.foldl min init ≤ x := by
  induction l generalizing init with
  | nil => cases hx
  | cons a l ih =>
    rcases List.mem_cons.mp hx with rfl | hx
    · exact le_trans (foldl_min_le_init l (min init x)) (min_le_right _ _)
    · exact ih hx (min init a)

theorem foldl_min_cases (l : List (WithTop α)) (init : WithTop α) :
    l.foldl min init = init ∨ ∃ x ∈ l, l.foldl min init = x := by
  induction l generalizing init with
  | nil => exact Or.inl rfl
  | cons a l ih =>
    rcases ih (min init a) with h | ⟨x, hx, h⟩
    · rcases le_total init a with hle | hle
      · exact Or.inl (by rw [List.foldl_cons, h, min_eq_left hle])
      · exact Or.inr ⟨a, List.mem_cons_self _ _,
          by rw [List.foldl_cons, h, min_eq_right hle]⟩
    · exact Or.inr ⟨x, List.mem_cons_of_mem _ hx, h⟩

theorem foldl_min_congr_mem {l1 l2 : List (WithTop α)} (h : ∀ x, x ∈ l1 ↔ x ∈ l2) :
    l1.foldl min ⊤ = l2.foldl min ⊤ := by
  apply le_antisymm
  · rcases foldl_min_cases l2 ⊤ with h2 | ⟨x, hx, h2⟩
    · rw [h2]; exact le_top
    · rw [h2]; exact foldl_min_le_mem ((h x).mpr hx) ⊤
  · rcases foldl_min_cases l1 ⊤ with h1 | ⟨x, hx, h1⟩
    · rw [h1]; exact le_top
    · rw [h1]; exact foldl_min_le_mem ((h x).mp hx) ⊤

theorem foldl_min_map_mono {f : α → α} (hf : Monotone f) (l : List α) (acc : WithTop α) :
    (l.map f).foldl (fun a (d : α) => min a (d : WithTop α)) (acc.map f) =
      ((l.foldl (fun a (d : α) => min a (d : WithTop α)) acc).map f) := by
  induction l generalizing acc with
  | nil => rfl
  | cons a l ih =>
    rw [List.map_cons, List.foldl_cons, List.foldl_cons, ← ih (min acc ↑a)]
    congr 1
    rw [Monotone.map_min hf.withTop_map, WithTop.map_coe]

theorem foldl_min_f_congr_mem {β : Type} (f : β → α) {l1 l2 : List β}
    (h : ∀ x, x ∈ l1 ↔ x ∈ l2) :
    l1.foldl (fun acc (d : β) => min acc ((f d : α) : WithTop α)) ⊤ =
      l2.foldl (fun acc (d : β) => min acc ((f d : α) : WithTop α)) ⊤ := by
  rw [show l1.foldl (fun acc (d : β) => min acc ((f d : α) : WithTop α)) ⊤ =
      (l1.map (fun d : β => ((f d : α) : WithTop α))).foldl min ⊤ from
    (List.foldl_map _ _ _ _).symm]
  rw [show l2.foldl (fun acc (d : β) => min acc ((f d : α) : WithTop α)) ⊤ =
      (l2.map (fun d : β => ((f d : α) : WithTop α))).foldl min ⊤ from
    (List.foldl_map _ _ _ _).symm]
  apply foldl_min_congr_mem
  intro x
  simp only [List.mem_map]
  constructor
  · rintro ⟨t, ht, rfl⟩
    exact ⟨t, (h t).mp ht, rfl⟩
  · rintro ⟨t, ht, rfl⟩
    exact ⟨t, (h t).mpr ht, rfl⟩

theorem run_min_eq_foldl_coe (l : List α) (init : WithTop α) :
    run_min l init = (l.map (fun d : α => (d : WithTop α))).foldl min init := by
  rw [run_min_eq_foldl_min, List.foldl_map]

theorem run_min_le_mem {l : List α} {x : α} (hx : x ∈ l) (init : WithTop α) :
    run_min l init ≤ (x : WithTop α) := by
  rw [run_min_eq_foldl_coe]
  exact foldl_min_le_mem (List.mem_map_of_mem _ hx) init

end MinFold

section DistanceDefs

/-- Magnitude, from curve.rs (Vec2::magnitude), over the reals. -/
noncomputable def Vec2.magnitude (a : Vec2 ℝ) : ℝ := Real.sqrt a.magnitude2

/-- From curve.rs (LinearSegment::distance).  For a degenerate segment the
source divides zero by zero giving NaN, and NaN.max(0.0) is 0.0 in Rust;
in Lean the division yields 0 and the clamp keeps 0, so both store t = 0. -/
noncomputable def LinearSegment.distance (s : LinearSegment ℝ) (p : Vec2 ℝ) : ℝ :=
  let m := p - s.p0
  let a := s.p1 - s.p0
  let t := min (max (m.dot a / a.dot a) 0) 1
  ((s.p0 + t • a) - p).magnitude

/-- Coefficient a3 of the point-distance cubic of QuadraticSegment::distance. -/
def qdist_a3 {K : Type} [LinearOrderedField K] (s : QuadraticSegment K) : K :=
  (s.p2 - s.p1 - (s.p1 - s.p0)).dot (s.p2 - s.p1 - (s.p1 - s.p0))

/-- Coefficient a2 of the point-distance cubic of QuadraticSegment::distance. -/
def qdist_a2 {K : Type} [LinearOrderedField K] (s : QuadraticSegment K) : K :=
  3 * ((s.p1 - s.p0).dot (s.p2 - s.p1 - (s.p1 - s.p0)))

/-- Coefficient a1 of the point-distance cubic of QuadraticSegment::distance. -/
def qdist_a1 {K : Type} [LinearOrderedField K] (s : QuadraticSegment K) (p : Vec2 K) : K :=
  2 * ((s.p1 - s.p0).dot (s.p1 - s.p0)) + (s.p0 - p).dot (s.p2 - s.p1 - (s.p1 - s.p0))

/-- Coefficient a0 of the point-distance cubic of QuadraticSegment::distance. -/
def qdist_a0 {K : Type} [LinearOrderedField K] (s : QuadraticSegment K) (p : Vec2 K) : K :=
  (s.p0 - p).dot (s.p1 - s.p0)

/-- From curve.rs (QuadraticSegment::distance).  fc is the external
find_roots_cubic; the candidate points are the curve points of the solver
roots kept in [0,1] plus the two endpoints, and the result is the square
root of the running minimum of squared distances.  The untop' 0 fallback
is never taken: the candidate list holds at least the endpoints. -/
noncomputable def QuadraticSegment.distance (fc : ℝ → ℝ → ℝ → ℝ → List ℝ)
    (s : QuadraticSegment ℝ) (p : Vec2 ℝ) : ℝ :=
  let candidates :=
    ((fc (qdist_a3 s) (qdist_a2 s) (qdist_a1 s p) (qdist_a0 s p)).filter
        (fun t => decide (0 ≤ t ∧ t ≤ 1))).map s.eval_point ++ [s.p0, s.p2]
  Real.sqrt ((run_min (candidates.map (fun x => (x - p).magnitude2)) ⊤).untop' 0)

/-- From curve.rs (CubicSegment::distance).  The bracketed Brent searches
over the 15 uniform sub-intervals are abstracted by the function brent,
which returns the root found on a bracket, if any; failures are skipped
exactly as the source discards Err results. -/
noncomputable def CubicSegment.distance (brent : (ℝ → ℝ) → ℝ → ℝ → Option ℝ)
    (s : CubicSegment ℝ) (p : Vec2 ℝ) : ℝ :=
  let f := fun t => ((s.eval_point t) - p).dot (s.eval_tangent t)
  let roots := (List.range 15).filterMap
    (fun i => brent f ((i : ℝ) / 15) (((i : ℝ) + 1) / 15))
  let candidates := roots.map s.eval_point ++ [s.p0, s.p3]
  Real.sqrt ((run_min (candidates.map (fun x => (x - p).magnitude2)) ⊤).untop' 0)

/-- From mindist.rs (struct OutlineDistance). -/
structure OutlineDistance where
  linear_segments : List (LinearSegment ℝ)
  quadratic_segments : List (QuadraticSegment ℝ)
  cubic_segments : List (CubicSegment ℝ)

/-- From mindist.rs (OutlineDistance::new). -/
def OutlineDistance.new : OutlineDistance := ⟨[], [], []⟩

/-- From mindist.rs (OutlineDistance::push_line). -/
def OutlineDistance.push_line (od : OutlineDistance) (p0 p1 : Vec2 ℝ) : OutlineDistance :=
  { od with linear_segments := od.linear_segments ++ [⟨p0, p1⟩] }

/-- From mindist.rs (OutlineDistance::push_bezier2). -/
def OutlineDistance.push_bezier2 (od : OutlineDistance) (p0 p1 p2 : Vec2 ℝ) : OutlineDistance :=
  { od with quadratic_segments := od.quadratic_segments ++ [⟨p0, p1, p2⟩] }

/-- From mindist.rs (OutlineDistance::push_bezier3). -/
def OutlineDistance.push_bezier3 (od : OutlineDistance) (p0 p1 p2 p3 : Vec2 ℝ) :
    OutlineDistance :=
  { od with cubic_segments := od.cubic_segments ++ [⟨p0, p1, p2, p3⟩] }

/-- From mindist.rs (OutlineDistance::distance): three running-minimum
loops over the linear, quadratic and cubic segments, started at f32
INFINITY (the top element). -/
noncomputable def OutlineDistance.distance (fc : ℝ → ℝ → ℝ → ℝ → List ℝ)
    (brent : (ℝ → ℝ) → ℝ → ℝ → Option ℝ) (od : OutlineDistance) (p : Vec2 ℝ) : WithTop ℝ :=
  run_min (od.cubic_segments.map (fun sgt => sgt.distance brent p))
    (run_min (od.quadratic_segments.map (fun sgt => sgt.distance fc p))
      (run_min (od.linear_segments.map (fun sgt => sgt.distance p)) ⊤))

/-- Claim C10: on an index with no segments the distance is positive
infinity (the top element); in general the distance is the minimum of all
unsigned distances of the stored segments, folded from an initial infinity. -/
theorem C10_distance_min (fc : ℝ → ℝ → ℝ → ℝ → List ℝ)
    (brent : (ℝ → ℝ) → ℝ → ℝ → Option ℝ) (od : OutlineDistance) (p : Vec2 ℝ) :
    OutlineDistance.distance fc brent OutlineDistance.new p = ⊤ ∧
      OutlineDistance.distance fc brent od p =
        ((od.linear_segments.map (fun sgt => sgt.distance p) ++
            od.quadratic_segments.map (fun sgt => sgt.distance fc p) ++
            od.cubic_segments.map (fun sgt => sgt.distance brent p)).foldl
          (fun acc (d : ℝ) => min acc (d : WithTop ℝ)) ⊤) := by
  constructor
  · rfl
  · rw [OutlineDistance.distance, run_min_eq_foldl_min, run_min_eq_foldl_min,
      run_min_eq_foldl_min, List.foldl_append, List.foldl_append]

theorem QuadraticSegment.eval_point_zero {K : Type} [LinearOrderedField K]
    (s : QuadraticSegment K) : s.eval_point 0 = s.p0 := by
  rcases s with ⟨⟨x0, y0⟩, ⟨x1, y1⟩, ⟨x2, y2⟩⟩
  simp only [QuadraticSegment.eval_point, Vec2.smul_def, Vec2.add_def, Vec2.mk.injEq]
  constructor <;> ring

theorem QuadraticSegment.eval_point_one {K : Type} [LinearOrderedField K]
    (s : QuadraticSegment K) : s.eval_point 1 = s.p2 := by
  rcases s with ⟨⟨x0, y0⟩, ⟨x1, y1⟩, ⟨x2, y2⟩⟩
  simp only [QuadraticSegment.eval_point, Vec2.smul_def, Vec2.add_def, Vec2.mk.injEq]
  constructor <;> ring

/-- The square root of the running minimum of squared distances over a
nonempty candidate list is the minimum of the unsquared distances. -/
theorem sqrt_run_min_mag2 (cand : List (Vec2 ℝ)) (p : Vec2 ℝ) (x0 : Vec2 ℝ) (hx0 : x0 ∈ cand) :
    ((Real.sqrt ((run_min (cand.map (fun x => (x - p).magnitude2)) ⊤).untop' 0) : ℝ) :
        WithTop ℝ) =
      (cand.map (fun x => (x - p).magnitude)).foldl (fun acc (d : ℝ) => min acc (d : WithTop ℝ))
        ⊤ := by
  have hmono : Monotone Real.sqrt := fun a b h => Real.sqrt_le_sqrt h
  have hne : run_min (cand.map (fun x => (x - p).magnitude2)) ⊤ ≠ ⊤ := by
    have hle := run_min_le_mem
      (List.mem_map_of_mem (fun x => (x - p).magnitude2) hx0) (⊤ : WithTop ℝ)
    exact ne_top_of_le_ne_top (WithTop.coe_ne_top) hle
  obtain ⟨v, hv⟩ := WithTop.ne_top_iff_exists.mp hne
  have hmap : cand.map (fun x => (x - p).magnitude) =
      (cand.map (fun x => (x - p).magnitude2)).map Real.sqrt := by
    rw [List.map_map]; rfl
  rw [hmap, ← hv, WithTop.untop'_coe,
    show ((Real.sqrt v : ℝ) : WithTop ℝ) = ((v : WithTop ℝ).map Real.sqrt) from rfl, hv,
    run_min_eq_foldl_min]
  exact (foldl_min_map_mono hmono _ ⊤).symm

/-- Claim C5: the quadratic segment distance is the minimum of the
distances from p to the curve points of the candidate parameters: every
real root of the point-distance cubic kept in [0,1] together with the
endpoint parameters 0 and 1.  The hypotheses say that the external
solver list (used by the code) and the list L (used to state the
minimum) both consist of exactly the real roots of that cubic. -/
theorem C5_quadratic_distance (s : QuadraticSegment ℝ) (p : Vec2 ℝ)
    (fc : ℝ → ℝ → ℝ → ℝ → List ℝ) (L : List ℝ)
    (hfc : ∀ t : ℝ, t ∈ fc (qdist_a3 s) (qdist_a2 s) (qdist_a1 s p) (qdist_a0 s p) ↔
      qdist_a3 s * t^3 + qdist_a2 s * t^2 + qdist_a1 s p * t + qdist_a0 s p = 0)
    (hL : ∀ t : ℝ, t ∈ L ↔
      qdist_a3 s * t^3 + qdist_a2 s * t^2 + qdist_a1 s p * t + qdist_a0 s p = 0) :
    ((QuadraticSegment.distance fc s p : ℝ) : WithTop ℝ) =
      ((L.filter (fun t => decide (0 ≤ t ∧ t ≤ 1)) ++ [0, 1]).map
          (fun t => (s.eval_point t - p).magnitude)).foldl
        (fun acc (d : ℝ) => min acc (d : WithTop ℝ)) ⊤ := by
  rw [show QuadraticSegment.distance fc s p =
      Real.sqrt ((run_min
        ((((fc (qdist_a3 s) (qdist_a2 s) (qdist_a1 s p) (qdist_a0 s p)).filter
            (fun t => decide (0 ≤ t ∧ t ≤ 1))).map s.eval_point ++ [s.p0, s.p2]).map
          (fun x => (x - p).magnitude2)) ⊤).untop' 0) from rfl]
  rw [sqrt_run_min_mag2 _ p s.p2 (by simp)]
  have hcand : ((fc (qdist_a3 s) (qdist_a2 s) (qdist_a1 s p) (qdist_a0 s p)).filter
        (fun t => decide (0 ≤ t ∧ t ≤ 1))).map s.eval_point ++ [s.p0, s.p2] =
      (((fc (qdist_a3 s) (qdist_a2 s) (qdist_a1 s p) (qdist_a0 s p)).filter
          (fun t => decide (0 ≤ t ∧ t ≤ 1))) ++ [0, 1]).map s.eval_point := by
    rw [List.map_append]
    congr 1
    simp [QuadraticSegment.eval_point_zero, QuadraticSegment.eval_point_one]
  rw [hcand, List.map_map]
  have hiff : ∀ t : ℝ,
      (t ∈ ((fc (qdist_a3 s) (qdist_a2 s) (qdist_a1 s p) (qdist_a0 s p)).filter
          (fun u => decide (0 ≤ u ∧ u ≤ 1))) ++ [0, 1]) ↔
      (t ∈ (L.filter (fun u => decide (0 ≤ u ∧ u ≤ 1))) ++ [0, 1]) := by
    intro t
    simp only [List.mem_append, List.mem_filter, hfc t, hL t]
  rw [List.foldl_map, List.foldl_map]
  exact foldl_min_f_congr_mem (fun t => (s.eval_point t - p).magnitude) hiff

/-- Witness for C5: a degenerate horizontal quadratic whose
point-distance cubic is linear with the single root 0. -/
theorem C5_quadratic_distance_witness :
    ((QuadraticSegment.distance (fun _ _ _ _ => [0])
        ⟨⟨0, 0⟩, ⟨1, 0⟩, ⟨2, 0⟩⟩ ⟨0, 1⟩ : ℝ) : WithTop ℝ) =
      ((([(0 : ℝ)].filter (fun t => decide (0 ≤ t ∧ t ≤ 1)) ++ [0, 1]).map
          (fun t => ((⟨⟨0, 0⟩, ⟨1, 0⟩, ⟨2, 0⟩⟩ : QuadraticSegment ℝ).eval_point t -
            (⟨0, 1⟩ : Vec2 ℝ)).magnitude)).foldl
        (fun acc (d : ℝ) => min acc (d : WithTop ℝ)) ⊤) :=
  C5_quadratic_distance ⟨⟨0, 0⟩, ⟨1, 0⟩, ⟨2, 0⟩⟩ ⟨0, 1⟩ (fun _ _ _ _ => [0]) [0]
    (by
      intro t
      norm_num [qdist_a3, qdist_a2, qdist_a1, qdist_a0, Vec2.dot])
    (by
      intro t
      norm_num [qdist_a3, qdist_a2, qdist_a1, qdist_a0, Vec2.dot])

end DistanceDefs

section RenderDefs

variable {K : Type} [LinearOrderedField K] [FloorRing K]

/-- Pixel-center X of Glyph::render_sdf: (xmin + xr) + 0.5. -/
def pixelCenterX (xmin : ℤ) (xr : ℕ) : K := ((xmin + (xr : ℤ) : ℤ) : K) + 1/2

/-- Pixel-center Y of Glyph::render_sdf: (ymin + (height - yr - 1)) + 0.5;
row 0 of the buffer is the top row of the glyph. -/
def pixelCenterY (ymin : ℤ) (height yr : ℕ) : K :=
  ((ymin + ((height : ℤ) - (yr : ℤ) - 1) : ℤ) : K) + 1/2

/-- The inner while loop of Glyph::render_sdf: consume the crossings whose
X is not past the pixel center, adding their dir into the winding
number. -/
def advance (x : K) : List (OrientedCrossing K) → ℤ → List (OrientedCrossing K) × ℤ
  | [], wn => ([], wn)
  | c :: cs, wn => if c.x ≤ x then advance x cs (wn + c.dir) else (c :: cs, wn)

/-- The quantization step of Glyph::render_sdf: the distance, negated when
inside, maps to 127 - d * scale, clamped to [0, 255] and truncated to a
byte.  A top distance (f32 INFINITY, the empty outline) yields 0 outside
and 255 inside, the IEEE outcome for a positive scale. -/
def quantize (scale : K) (d : WithTop K) (inside : Bool) : ℕ :=
  WithTop.recTopCoe (if inside then 255 else 0)
    (fun r =>
      let sd := if inside then -r else r
      let v := 127 - sd * scale
      let v1 := if v < 0 then 0 else v
      let v2 := if 255 < v1 then 255 else v1
      ⌊v2⌋₊) d

/-- The per-row pixel loop of Glyph::render_sdf; dist abstracts the call
mindist.distance(mp). -/
def renderRowGo (dist : Vec2 K → WithTop K) (rf : Bool) (scale : K) (y : K) (xmin : ℤ)
    (offset : ℕ) : ℕ → ℕ → List (OrientedCrossing K) → ℤ → (ℕ → ℕ) → (ℕ → ℕ)
  | 0, _, _, _, buf => buf
  | n + 1, xr, cs, wn, buf =>
    let x := pixelCenterX (K := K) xmin xr
    let st := advance x cs wn
    let inside : Bool := if rf then decide (st.2 < 0) else decide (0 < st.2)
    let v := quantize scale (dist ⟨x, y⟩) inside
    renderRowGo dist rf scale y xmin offset n (xr + 1) st.1 st.2
      (Function.update buf (offset + xr) v)

/-- The row loop of Glyph::render_sdf; a panic inside scanline_crossings
aborts the render (none). -/
def renderRows (fq : K → K → K → List K) (fc : K → K → K → K → List K)
    (dist : Vec2 K → WithTop K) (rf : Bool) (scale : K) (gx gy width height pitch : ℕ)
    (xmin ymin : ℤ) (rast : Rasterizer K) : ℕ → ℕ → (ℕ → ℕ) → Option (ℕ → ℕ)
  | 0, _, buf => some buf
  | n + 1, yr, buf =>
    match rast.scanline_crossings fq fc (pixelCenterY ymin height yr) with
    | none => none
    | some cs =>
      renderRows fq fc dist rf scale gx gy width height pitch xmin ymin rast n (yr + 1)
        (renderRowGo dist rf scale (pixelCenterY ymin height yr) xmin
          ((gy + yr) * pitch + gx) width 0 cs 0 buf)

/-- The rendering loops of Glyph::render_sdf over an already ingested
outline, with the distance index abstracted as dist; scale is
1920 / face_size as in the source. -/
def renderSDF (fq : K → K → K → List K) (fc : K → K → K → K → List K)
    (dist : Vec2 K → WithTop K) (faceSize : ℕ) (rf : Bool)
    (gx gy width height pitch : ℕ) (xmin ymin : ℤ) (rast : Rasterizer K)
    (buf0 : ℕ → ℕ) : Option (ℕ → ℕ) :=
  renderRows fq fc dist rf (1920 / (faceSize : K)) gx gy width height pitch xmin ymin rast
    height 0 buf0

/-- From font.rs (Glyph::render_sdf), rendering phase: the real-valued
pipeline with the distance oracle tied to OutlineDistance::distance. -/
noncomputable def Glyph.render_sdf (fq : ℝ → ℝ → ℝ → List ℝ) (fc : ℝ → ℝ → ℝ → ℝ → List ℝ)
    (fcd : ℝ → ℝ → ℝ → ℝ → List ℝ) (brent : (ℝ → ℝ) → ℝ → ℝ → Option ℝ)
    (faceSize : ℕ) (rf : Bool) (gx gy width height pitch : ℕ) (xmin ymin : ℤ)
    (rast : Rasterizer ℝ) (od : OutlineDistance) (buf0 : ℕ → ℕ) : Option (ℕ → ℕ) :=
  renderSDF fq fc (fun mp => od.distance fcd brent mp) faceSize rf gx gy width height pitch
    xmin ymin rast buf0

/-- The winding number of claim C1: the sum of dir over all crossings
whose X is at most the pixel-center X. -/
def windingAt (cs : List (OrientedCrossing K)) (x : K) : ℤ :=
  ((cs.filter (fun c => decide (c.x ≤ x))).map (fun c => c.dir)).sum

/-- The inside test of claim C1: wn < 0 under reverse fill, wn > 0
otherwise (non-zero rule). -/
def insideAt (rf : Bool) (wn : ℤ) : Bool := if rf then decide (wn < 0) else decide (0 < wn)

/-- The pixel byte that claim C1 predicts: the quantization of the
distance at the pixel center, negated when the winding-number rule says
inside. -/
def specPixelByte (fq : K → K → K → List K) (fc : K → K → K → K → List K)
    (dist : Vec2 K → WithTop K) (scale : K) (rf : Bool) (xmin ymin : ℤ)
    (height : ℕ) (rast : Rasterizer K) (yr xr : ℕ) : ℕ :=
  quantize scale (dist ⟨pixelCenterX xmin xr, pixelCenterY ymin height yr⟩)
    (insideAt rf
      (windingAt ((rast.scanline_crossings fq fc (pixelCenterY ymin height yr)).getD [])
        (pixelCenterX xmin xr)))

end RenderDefs

section RenderProofs

variable {K : Type} [LinearOrderedField K] [FloorRing K]

theorem advance_eq (x : K) (cs : List (OrientedCrossing K)) (wn : ℤ) :
    advance x cs wn = (cs.dropWhile (fun c => decide (c.x ≤ x)),
      wn + ((cs.takeWhile (fun c => decide (c.x ≤ x))).map (fun c => c.dir)).sum) := by
  induction cs generalizing wn with
  | nil => simp [advance]
  | cons c cs ih =>
    by_cases h : c.x ≤ x
    · simp only [advance, h, if_pos, List.dropWhile_cons, List.takeWhile_cons,
        decide_eq_true_eq, ih, List.map_cons, List.sum_cons, if_true,
        decide_eq_true h]
      rw [Prod.mk.injEq]
      exact ⟨rfl, by ring⟩
    · simp [advance, h, List.dropWhile_cons, List.takeWhile_cons]

theorem takeWhile_eq_filter_of_sorted {cs : List (OrientedCrossing K)}
    (h : cs.Sorted (fun a b => a.x ≤ b.x)) (x : K) :
    cs.takeWhile (fun c => decide (c.x ≤ x)) = cs.filter (fun c => decide (c.x ≤ x)) := by
  induction cs with
  | nil => rfl
  | cons c cs ih =>
    rcases List.sorted_cons.mp h with ⟨hc, hcs⟩
    by_cases hcx : c.x ≤ x
    · simp [List.takeWhile_cons, List.filter_cons, hcx, ih hcs]
    · simp only [List.takeWhile_cons, List.filter_cons, decide_eq_true_eq, hcx, if_neg,
        if_false]
      symm
      rw [List.filter_eq_nil_iff]
      intro b hb
      simp only [decide_eq_true_eq]
      intro hbx
      exact hcx (le_trans (hc b hb) hbx)

theorem advance_wn_eq {cs : List (OrientedCrossing K)}
    (hs : cs.Sorted (fun a b => a.x ≤ b.x)) (x : K) (wn : ℤ) :
    (advance x cs wn).2 = wn + windingAt cs x := by
  rw [advance_eq, windingAt, ← takeWhile_eq_filter_of_sorted hs]

theorem advance_sorted {cs : List (OrientedCrossing K)}
    (hs : cs.Sorted (fun a b => a.x ≤ b.x)) (x : K) (wn : ℤ) :
    (advance x cs wn).1.Sorted (fun a b => a.x ≤ b.x) := by
  rw [advance_eq]
  exact List.Pairwise.sublist (List.dropWhile_sublist _) hs

theorem windingAt_advance {cs : List (OrientedCrossing K)}
    (hs : cs.Sorted (fun a b => a.x ≤ b.x)) {x x' : K} (hxx : x ≤ x') (wn : ℤ) :
    (advance x cs wn).2 + windingAt (advance x cs wn).1 x' = wn + windingAt cs x' := by
  rw [advance_eq]
  conv_rhs => rw [← List.takeWhile_append_dropWhile (p := fun c => decide (c.x ≤ x)) (l := cs)]
  rw [windingAt, windingAt, List.filter_append, List.map_append, List.sum_append]
  have htake : (cs.takeWhile (fun c => decide (c.x ≤ x))).filter
      (fun c => decide (c.x ≤ x')) = cs.takeWhile (fun c => decide (c.x ≤ x)) := by
    rw [List.filter_eq_self]
    intro a ha
    have hmem := List.mem_takeWhile_imp ha
    simp only [decide_eq_true_eq] at hmem ⊢
    exact le_trans hmem hxx
  rw [htake]
  ring

theorem pixelCenterX_le_succ (xmin : ℤ) (xr : ℕ) :
    (pixelCenterX xmin xr : K) ≤ pixelCenterX xmin (xr + 1) := by
  unfold pixelCenterX
  push_cast
  linarith

theorem renderRowGo_frame (dist : Vec2 K → WithTop K) (rf : Bool) (scale y : K) (xmin : ℤ)
    (offset : ℕ) :
    ∀ (n xr : ℕ) (cs : List (OrientedCrossing K)) (wn : ℤ) (buf : ℕ → ℕ) (i : ℕ),
      (∀ k : ℕ, xr ≤ k → k < xr + n → i ≠ offset + k) →
      renderRowGo dist rf scale y xmin offset n xr cs wn buf i = buf i := by
  intro n
  induction n with
  | zero => intro xr cs wn buf i _; rfl
  | succ n ih =>
    intro xr cs wn buf i hi
    rw [renderRowGo]
    rw [ih (xr + 1) _ _ _ i (fun k h1 h2 => hi k (by omega) (by omega))]
    exact Function.update_noteq (hi xr (le_refl xr) (by omega)) _ buf

theorem renderRowGo_value (dist : Vec2 K → WithTop K) (rf : Bool) (scale y : K) (xmin : ℤ)
    (offset : ℕ) (cs0 : List (OrientedCrossing K)) :
    ∀ (n xr0 : ℕ) (cs : List (OrientedCrossing K)) (wn : ℤ) (buf : ℕ → ℕ) (xr : ℕ),
      xr0 ≤ xr → xr < xr0 + n →
      cs.Sorted (fun a b => a.x ≤ b.x) →
      (∀ x' : K, pixelCenterX xmin xr0 ≤ x' → wn + windingAt cs x' = windingAt cs0 x') →
      renderRowGo dist rf scale y xmin offset n xr0 cs wn buf (offset + xr) =
        quantize scale (dist ⟨pixelCenterX xmin xr, y⟩)
          (insideAt rf (windingAt cs0 (pixelCenterX xmin xr))) := by
  intro n
  induction n with
  | zero => intro xr0 cs wn buf xr h1 h2; omega
  | succ n ih =>
    intro xr0 cs wn buf xr h1 h2 hs hwn
    rw [renderRowGo]
    rcases eq_or_lt_of_le h1 with rfl | hlt
    · rw [renderRowGo_frame dist rf scale y xmin offset n (xr0 + 1) _ _ _ _
        (fun k hk1 hk2 => by omega)]
      rw [Function.update_same]
      rw [show (if rf then decide ((advance (pixelCenterX xmin xr0) cs wn).2 < 0)
            else decide (0 < (advance (pixelCenterX xmin xr0) cs wn).2)) =
          insideAt rf (advance (pixelCenterX xmin xr0) cs wn).2 from rfl]
      rw [advance_wn_eq hs, hwn _ (le_refl _)]
    · apply ih (xr0 + 1) _ _ _ xr hlt (by omega)
        (advance_sorted hs (pixelCenterX xmin xr0) wn)
      intro x' hx'
      have hge : pixelCenterX (K := K) xmin xr0 ≤ x' :=
        le_trans (pixelCenterX_le_succ xmin xr0) hx'
      rw [windingAt_advance hs hge wn]
      exact hwn x' hge

theorem row_index_disjoint {gy pitch gx width yr1 yr2 xr1 xr2 : ℕ}
    (hp : gx + width ≤ pitch) (h12 : yr1 < yr2) (hx1 : xr1 < width) :
    (gy + yr1) * pitch + gx + xr1 ≠ (gy + yr2) * pitch + gx + xr2 := by
  intro he
  have key : (gy + yr1) * pitch + pitch ≤ (gy + yr2) * pitch := by
    have h1 : gy + yr1 + 1 ≤ gy + yr2 := by omega
    calc (gy + yr1) * pitch + pitch = (gy + yr1 + 1) * pitch := by ring
      _ ≤ (gy + yr2) * pitch := Nat.mul_le_mul_right pitch h1
  linarith

theorem scanline_crossings_sorted {fq : K → K → K → List K} {fc : K → K → K → K → List K}
    {r : Rasterizer K} {y : K} {l : List (OrientedCrossing K)}
    (h : r.scanline_crossings fq fc y = some l) :
    l.Sorted (fun a b => a.x ≤ b.x) := by
  haveI htot : IsTotal (OrientedCrossing K) (fun a b => a.x ≤ b.x) := ⟨fun a b => le_total a.x b.x⟩
  haveI htra : IsTrans (OrientedCrossing K) (fun a b => a.x ≤ b.x) :=
    ⟨fun a b c hab hbc => le_trans hab hbc⟩
  rw [Rasterizer.scanline_crossings] at h
  rcases hq : collect_quadratic fq y r.quadratic_profiles with _ | qs <;> rw [hq] at h
  · cases h
  · rcases hc : collect_cubic fq fc y r.cubic_profiles with _ | cs <;> rw [hc] at h
    · cases h
    · injection h with h
      rw [← h]
      exact List.sorted_insertionSort _ _

theorem renderRows_frame (fq : K → K → K → List K) (fc : K → K → K → K → List K)
    (dist : Vec2 K → WithTop K) (rf : Bool) (scale : K) (gx gy width height pitch : ℕ)
    (xmin ymin : ℤ) (rast : Rasterizer K) :
    ∀ (n yr0 : ℕ) (buf b : ℕ → ℕ),
      renderRows fq fc dist rf scale gx gy width height pitch xmin ymin rast n yr0 buf =
        some b →
      ∀ i : ℕ,
        (∀ yr k : ℕ, yr0 ≤ yr → yr < yr0 + n → k < width → i ≠ (gy + yr) * pitch + gx + k) →
        b i = buf i := by
  intro n
  induction n with
  | zero =>
    intro yr0 buf b hres i hi
    cases hres
    rfl
  | succ n ih =>
    intro yr0 buf b hres i hi
    rw [renderRows] at hres
    rcases hscan : rast.scanline_crossings fq fc (pixelCenterY ymin height yr0)
      with _ | cs <;> rw [hscan] at hres
    · cases hres
    · rw [ih (yr0 + 1) _ b hres i (fun yr k h1 h2 h3 => hi yr k (by omega) (by omega) h3)]
      exact renderRowGo_frame dist rf scale _ xmin _ width 0 cs 0 buf i
        (fun k hk1 hk2 => hi yr0 k (le_refl _) (by omega) (by omega))

theorem renderRows_value (fq : K → K → K → List K) (fc : K → K → K → K → List K)
    (dist : Vec2 K → WithTop K) (rf : Bool) (scale : K) (gx gy width height pitch : ℕ)
    (xmin ymin : ℤ) (rast : Rasterizer K) (hpitch : gx + width ≤ pitch) :
    ∀ (n yr0 : ℕ) (buf b : ℕ → ℕ),
      renderRows fq fc dist rf scale gx gy width height pitch xmin ymin rast n yr0 buf =
        some b →
      ∀ yr xr : ℕ, yr0 ≤ yr → yr < yr0 + n → xr < width →
        b ((gy + yr) * pitch + gx + xr) =
          specPixelByte fq fc dist scale rf xmin ymin height rast yr xr := by
  intro n
  induction n with
  | zero => intro yr0 buf b hres yr xr h1 h2; omega
  | succ n ih =>
    intro yr0 buf b hres yr xr h1 h2 hxr
    rw [renderRows] at hres
    rcases hscan : rast.scanline_crossings fq fc (pixelCenterY ymin height yr0)
      with _ | cs <;> rw [hscan] at hres
    · cases hres
    · rcases eq_or_lt_of_le h1 with rfl | hlt
      · rw [renderRows_frame fq fc dist rf scale gx gy width height pitch xmin ymin rast
          n (yr0 + 1) _ b hres _
          (fun yr2 k hy1 hy2 hk => row_index_disjoint hpitch (by omega) hxr)]
        rw [show (gy + yr0) * pitch + gx + xr = ((gy + yr0) * pitch + gx) + xr from rfl]
        rw [renderRowGo_value dist rf scale _ xmin _ cs width 0 cs 0 buf xr
          (Nat.zero_le xr) (by omega) (scanline_crossings_sorted hscan)
          (fun x' _ => zero_add _)]
        rw [specPixelByte, hscan]
        rfl
      · exact ih (yr0 + 1) _ b hres yr xr hlt (by omega) hxr

/-- Claim C1: every byte that Glyph::render_sdf stores equals the
quantization of the signed distance at the pixel center, where inside is
decided by the running winding number over all crossings with X at most
the pixel-center X (noting the crossings are sorted), the distance is
negated inside, and the byte is 127 - d * (1920 / face_size) clamped to
[0, 255]. -/
theorem C1_render_sdf_pixel_bytes (fq : ℝ → ℝ → ℝ → List ℝ) (fc : ℝ → ℝ → ℝ → ℝ → List ℝ)
    (fcd : ℝ → ℝ → ℝ → ℝ → List ℝ) (brent : (ℝ → ℝ) → ℝ → ℝ → Option ℝ)
    (faceSize : ℕ) (rf : Bool) (gx gy width height pitch : ℕ) (xmin ymin : ℤ)
    (rast : Rasterizer ℝ) (od : OutlineDistance) (buf0 b : ℕ → ℕ)
    (hres : Glyph.render_sdf fq fc fcd brent faceSize rf gx gy width height pitch xmin ymin
      rast od buf0 = some b)
    (hpitch : gx + width ≤ pitch) (yr xr : ℕ) (hyr : yr < height) (hxr : xr < width) :
    b ((gy + yr) * pitch + gx + xr) =
      specPixelByte fq fc (fun mp => od.distance fcd brent mp) (1920 / (faceSize : ℝ)) rf
        xmin ymin height rast yr xr :=
  renderRows_value fq fc (fun mp => od.distance fcd brent mp) rf (1920 / (faceSize : ℝ))
    gx gy width height pitch xmin ymin rast hpitch height 0 buf0 b hres yr xr
    (Nat.zero_le yr) (by omega) hxr

/-- Claim C9: Glyph::render_sdf writes only the bytes of its own glyph
rectangle; every byte outside the spans of all rows is unchanged. -/
theorem C9_render_sdf_frame (fq : ℝ → ℝ → ℝ → List ℝ) (fc : ℝ → ℝ → ℝ → ℝ → List ℝ)
    (fcd : ℝ → ℝ → ℝ → ℝ → List ℝ) (brent : (ℝ → ℝ) → ℝ → ℝ → Option ℝ)
    (faceSize : ℕ) (rf : Bool) (gx gy width height pitch : ℕ) (xmin ymin : ℤ)
    (rast : Rasterizer ℝ) (od : OutlineDistance) (buf0 b : ℕ → ℕ)
    (hres : Glyph.render_sdf fq fc fcd brent faceSize rf gx gy width height pitch xmin ymin
      rast od buf0 = some b)
    (i : ℕ) (hout : ∀ yr k : ℕ, yr < height → k < width → i ≠ (gy + yr) * pitch + gx + k) :
    b i = buf0 i :=
  renderRows_frame fq fc (fun mp => od.distance fcd brent mp) rf (1920 / (faceSize : ℝ))
    gx gy width height pitch xmin ymin rast height 0 buf0 b hres i
    (fun yr k h1 h2 h3 => hout yr k (by omega) h3)

/-- Witness for C1: a 1 by 1 glyph with an empty outline; the single
byte is the quantization of the infinite distance, outside. -/
theorem C1_render_sdf_pixel_bytes_witness :
    (Glyph.render_sdf (fun _ _ _ => []) (fun _ _ _ _ => []) (fun _ _ _ _ => [])
        (fun _ _ _ => none) 64 false 0 0 1 1 1 0 0 Rasterizer.new OutlineDistance.new
        (fun _ => 3)).map (fun bb => bb 0) =
      some (specPixelByte (fun _ _ _ => []) (fun _ _ _ _ => [])
        (fun mp => OutlineDistance.new.distance (fun _ _ _ _ => []) (fun _ _ _ => none) mp)
        (1920 / (64 : ℝ)) false 0 0 1 Rasterizer.new 0 0) := by
  have hs : (Glyph.render_sdf (fun _ _ _ => []) (fun _ _ _ _ => []) (fun _ _ _ _ => [])
      (fun _ _ _ => none) 64 false 0 0 1 1 1 0 0 Rasterizer.new OutlineDistance.new
      (fun _ => 3)).isSome = true := rfl
  cases h : Glyph.render_sdf (fun _ _ _ => []) (fun _ _ _ _ => []) (fun _ _ _ _ => [])
      (fun _ _ _ => none) 64 false 0 0 1 1 1 0 0 Rasterizer.new OutlineDistance.new
      (fun _ => 3) with
  | none => rw [h] at hs; cases hs
  | some bb =>
    rw [Option.map_some']
    exact congrArg some
      (C1_render_sdf_pixel_bytes (fun _ _ _ => []) (fun _ _ _ _ => []) (fun _ _ _ _ => [])
        (fun _ _ _ => none) 64 false 0 0 1 1 1 0 0 Rasterizer.new OutlineDistance.new
        (fun _ => 3) bb h (by omega) 0 0 (by omega) (by omega))

/-- Witness for C9: the byte at index 5 lies outside the 1 by 1 glyph
rectangle and keeps its initial value 7. -/
theorem C9_render_sdf_frame_witness :
    (Glyph.render_sdf (fun _ _ _ => []) (fun _ _ _ _ => []) (fun _ _ _ _ => [])
        (fun _ _ _ => none) 64 false 0 0 1 1 1 0 0 Rasterizer.new OutlineDistance.new
        (fun _ => 7)).map (fun bb => bb 5) = some 7 := by
  have hs : (Glyph.render_sdf (fun _ _ _ => []) (fun _ _ _ _ => []) (fun _ _ _ _ => [])
      (fun _ _ _ => none) 64 false 0 0 1 1 1 0 0 Rasterizer.new OutlineDistance.new
      (fun _ => 7)).isSome = true := rfl
  cases h : Glyph.render_sdf (fun _ _ _ => []) (fun _ _ _ _ => []) (fun _ _ _ _ => [])
      (fun _ _ _ => none) 64 false 0 0 1 1 1 0 0 Rasterizer.new OutlineDistance.new
      (fun _ => 7) with
  | none => rw [h] at hs; cases hs
  | some bb =>
    rw [Option.map_some']
    exact congrArg some
      (C9_render_sdf_frame (fun _ _ _ => []) (fun _ _ _ _ => []) (fun _ _ _ _ => [])
        (fun _ _ _ => none) 64 false 0 0 1 1 1 0 0 Rasterizer.new OutlineDistance.new
        (fun _ => 7) bb h 5 (by intro yr k h1 h2; omega))

end RenderProofs

section AtlasBuild

/-- Modelled from the spec: the error taxonomy names AtlasFull for the
case in which the packer returns no placement.  The source never
constructs an error value of this kind; the constructor exists to state
what the spec predicts. -/
inductive BuildError where
  | atlasFull
deriving DecidableEq

/-- The observable outcome of an atlas build: a finished placement list,
a surfaced error value, or a process-aborting panic with its message. -/
inductive BuildOutcome where
  | ok (placements : List (ℕ × ℕ × ℕ × ℕ))
  | err (e : BuildError)
  | panicked (msg : String)
deriving DecidableEq

/-- From font.rs (Font::build_from_face), packing control flow: the glyph
loop reduced to the sequence of width and height requests; pack abstracts
the external RectPacker (state threaded explicitly since the packer is
mutated by each call).  Glyph metric loading and SDF rendering do not
influence this path and are omitted.  When pack returns no placement the
source panics with the message below; it never produces an error
value. -/
def build_from_face {σ : Type} (pack : σ → ℕ → ℕ → Option (ℕ × ℕ) × σ) :
    σ → List (ℕ × ℕ) → List (ℕ × ℕ × ℕ × ℕ) → BuildOutcome
  | _, [], acc => .ok acc.reverse
  | st, (w, h) :: rest, acc =>
    match pack st w h with
    | (some pos, st2) => build_from_face pack st2 rest ((pos.1, pos.2, w, h) :: acc)
    | (none, _) => .panicked "font texture not large enough"

/-- Claim C7, counterexample: when the packer has no room the build does
not surface an AtlasFull error to the caller; it panics, which the
caller cannot catch to enlarge the atlas and retry. -/
theorem C7_counterexample :
    build_from_face (fun (st : Unit) _ _ => (none, st)) () [(1, 1)] [] =
        BuildOutcome.panicked "font texture not large enough" ∧
      BuildOutcome.panicked "font texture not large enough" ≠
        BuildOutcome.err BuildError.atlasFull :=
  ⟨rfl, by simp⟩

/-- Claim C7, amended: when the packer returns no placement for the next
glyph the build aborts with the panic message of the source, and no run
of the build ever returns a surfaced error value. -/
theorem C7_build_panics :
    (∀ (σ : Type) (pack : σ → ℕ → ℕ → Option (ℕ × ℕ) × σ) (st : σ) (w h : ℕ)
        (rest : List (ℕ × ℕ)) (acc : List (ℕ × ℕ × ℕ × ℕ)),
      (pack st w h).1 = none →
      build_from_face pack st ((w, h) :: rest) acc =
        BuildOutcome.panicked "font texture not large enough") ∧
    (∀ (σ : Type) (pack : σ → ℕ → ℕ → Option (ℕ × ℕ) × σ) (st : σ)
        (gs : List (ℕ × ℕ)) (acc : List (ℕ × ℕ × ℕ × ℕ)) (e : BuildError),
      build_from_face pack st gs acc ≠ BuildOutcome.err e) := by
  constructor
  · intro σ pack st w h rest acc hn
    rcases hp : pack st w h with ⟨o, st2⟩
    rw [hp] at hn
    simp only at hn
    subst hn
    simp [build_from_face, hp]
  · intro σ pack st gs acc e
    induction gs generalizing st acc with
    | nil => simp [build_from_face]
    | cons g rest ih =>
      rcases g with ⟨w, h⟩
      rcases hp : pack st w h with ⟨_ | pos, st2⟩
      · simp [build_from_face, hp]
      · simp only [build_from_face, hp]
        exact ih st2 _

/-- Witness for the amended C7 with a packer that is already full. -/
theorem C7_build_panics_witness :
    build_from_face (fun (st : Unit) _ _ => (none, st)) () [(2, 3)] [] =
        BuildOutcome.panicked "font texture not large enough" ∧
      build_from_face (fun (st : Unit) _ _ => (none, st)) () [(2, 3)] [] ≠
        BuildOutcome.err BuildError.atlasFull :=
  ⟨C7_build_panics.1 Unit (fun st _ _ => (none, st)) () 2 3 [] [] rfl,
    C7_build_panics.2 Unit (fun st _ _ => (none, st)) () [(2, 3)] [] BuildError.atlasFull⟩

end AtlasBuild
